import Mathlib

/-!
Verification of the Game of Life simulation core and interaction state
machine of a NumWorks calculator application (Rust sources src/main.rs and
src/eadk.rs), as a shallow embedding in Lean 4.

Modelling conventions:
- The fixed-size 2-D array Board of the source (type Board of main.rs,
  line 26) is a total function on bounded indices.
- Machine integers are modelled as Nat or Int; the only wrap-relevant
  operation, wrapping_shr of u64 in key_down (eadk.rs line 217), keeps its
  shift-modulo-64 semantics.
- Fallible operations return Option: the push(..).unwrap() calls of
  run_once (main.rs lines 83 and 84) panic when a heapless Vec of capacity
  BOARD_SIZE would overflow, and indexing a board with an out-of-bounds
  pointer panics; both are modelled by the value none.
- Display output (push_rect_uniform, draw_cell, wait_for_vblank) and
  timing (msleep) have no effect on any state the program later reads, so
  they are elided from the state model.
-/

/-- Screen width in pixels (eadk.rs line 4). -/
def SCREEN_WIDTH : Nat := 320

/-- Screen height in pixels (eadk.rs line 7). -/
def SCREEN_HEIGHT : Nat := 240

/-- Side of one drawn cell in pixels (main.rs line 21). -/
def CELL_SIZE : Nat := 4

/-- Number of board columns, 80 (main.rs line 22). -/
def LINE_SIZE : Nat := SCREEN_WIDTH / CELL_SIZE

/-- Number of board rows, 60 (main.rs line 23). -/
def COLUMN_SIZE : Nat := SCREEN_HEIGHT / CELL_SIZE

/-- Total number of cells, the capacity of the born and died collections
(main.rs line 24). -/
def BOARD_SIZE : Nat := LINE_SIZE * COLUMN_SIZE

/-- The board type of main.rs line 26: a LINE_SIZE by COLUMN_SIZE array,
indexed first by the x (column) coordinate, then by the y (row)
coordinate. -/
def Board (T : Type) : Type := Fin LINE_SIZE → Fin COLUMN_SIZE → T

/-- An in-bounds cell coordinate, the element type of the born and died
collections (OnBoard of main.rs line 27 holds usize pairs that are always
in bounds). -/
abbrev Coord : Type := Fin LINE_SIZE × Fin COLUMN_SIZE

/-- The three modes of the application (main.rs lines 29 to 33). -/
inductive AppState : Type where
  | Editor : AppState
  | Running : AppState
  | StepByStep : AppState
deriving DecidableEq

/-- get_cell of main.rs lines 35 to 41: read a cell at signed coordinates
as 0 or 1, any out-of-bounds coordinate reading as 0. -/
def get_cell (board : Board Bool) (p : Int × Int) : Nat :=
  if h : p.1 < 0 ∨ p.2 < 0 ∨ (LINE_SIZE : Int) - 1 < p.1 ∨ (COLUMN_SIZE : Int) - 1 < p.2 then
    0
  else
    if board ⟨p.1.toNat, by omega⟩ ⟨p.2.toNat, by omega⟩ then 1 else 0

/-- The Moore neighbor count computed inside run_cell, main.rs lines
46 to 53: the sum of get_cell over the 8 neighbors of (x, y). -/
def neighbor_count (board : Board Bool) (x : Fin LINE_SIZE) (y : Fin COLUMN_SIZE) : Nat :=
  get_cell board ((x.val : Int) - 1, (y.val : Int) - 1) +
    get_cell board ((x.val : Int), (y.val : Int) - 1) +
    get_cell board ((x.val : Int) + 1, (y.val : Int) - 1) +
    get_cell board ((x.val : Int) - 1, (y.val : Int)) +
    get_cell board ((x.val : Int) + 1, (y.val : Int)) +
    get_cell board ((x.val : Int) - 1, (y.val : Int) + 1) +
    get_cell board ((x.val : Int), (y.val : Int) + 1) +
    get_cell board ((x.val : Int) + 1, (y.val : Int) + 1)

/-- run_cell of main.rs lines 43 to 62: some true for a birth, some false
for a death, none for a cell left unchanged. The source indexes the board
with usize coordinates that are in bounds at every call site; the model
takes bounded coordinates. -/
def run_cell (board : Board Bool) (x : Fin LINE_SIZE) (y : Fin COLUMN_SIZE) : Option Bool :=
  if neighbor_count board x y = 3 ∧ board x y = false then some true
  else if neighbor_count board x y ≠ 2 ∧ neighbor_count board x y ≠ 3 ∧ board x y = true then
    some false
  else none

/-- The offset range -1..=1 iterated by the sparse scan of run_once
(main.rs lines 74 and 75). -/
def offsets : List Int := [-1, 0, 1]

/-- The clamped neighbor coordinate computed at main.rs lines 76 to 79:
(x + dx).max(0).min(LINE_SIZE - 1) paired with the same for y. -/
def clamp_coord (x : Fin LINE_SIZE) (y : Fin COLUMN_SIZE) (dx dy : Int) : Coord :=
  (⟨(min (max ((x.val : Int) + dx) 0) ((LINE_SIZE : Int) - 1)).toNat, by
      have hx := x.isLt; omega⟩,
   ⟨(min (max ((y.val : Int) + dy) 0) ((COLUMN_SIZE : Int) - 1)).toNat, by
      have hy := y.isLt; omega⟩)

/-- The mutable state accumulated during the scan of run_once: the visited
markers (updated_board, main.rs line 66) and the two coordinate
collections (born and died, main.rs lines 68 and 69). -/
structure ScanState : Type where
  upd : Board Bool
  born : List Coord
  died : List Coord

/-- The body of the inner double loop of run_once (main.rs lines 80 to
87): skip a visited cell; otherwise mark it visited and append it to born
or died according to run_cell. The match of the source is rendered as two
conditional appends, one per arm. -/
def visit (board : Board Bool) (s : ScanState) (c : Coord) : ScanState :=
  if s.upd c.1 c.2 then s
  else
    { upd := fun i j => if i = c.1 ∧ j = c.2 then true else s.upd i j,
      born := s.born ++ (if run_cell board c.1 c.2 = some true then [c] else []),
      died := s.died ++ (if run_cell board c.1 c.2 = some false then [c] else []) }

/-- The per-cell body of the outer scan of run_once (main.rs lines 73 to
90): when the cell is alive on the pre-step board, visit the 9 clamped
coordinates of its 3 by 3 neighborhood, dx outer and dy inner. -/
def scan_cell (board : Board Bool) (s : ScanState) (c : Coord) : ScanState :=
  if board c.1 c.2 then
    offsets.foldl
      (fun s1 dx =>
        offsets.foldl (fun s2 dy => visit board s2 (clamp_coord c.1 c.2 dx dy)) s1)
      s
  else s

/-- Every board coordinate in the iteration order of main.rs lines 71 and
72: x (column) outer, y (row) inner. -/
def allCoords : List Coord :=
  (List.finRange LINE_SIZE).flatMap fun x =>
    (List.finRange COLUMN_SIZE).map fun y => (x, y)

/-- The whole scan phase of run_once (main.rs lines 64 to 92), starting
from an all-false visited board and empty collections. -/
def scan (board : Board Bool) : ScanState :=
  allCoords.foldl (scan_cell board) ⟨fun _ _ => false, [], []⟩

/-- Writing one cell of a board, board[x][y] = v as at main.rs lines 95
and 99. -/
def set_cell (b : Board Bool) (c : Coord) (v : Bool) : Board Bool :=
  fun i j => if i = c.1 ∧ j = c.2 then v else b i j

/-- run_once of main.rs lines 64 to 102: scan, then apply every birth,
then every death, returning the next board together with the emitted born
and died collections. The born and died collections are heapless Vecs of
capacity BOARD_SIZE whose push(..).unwrap() panics as soon as a length
would pass the capacity; the lengths grow one by one, so some push panics
exactly when a final length passes BOARD_SIZE, the condition modelled
here by returning none. -/
def run_once (board : Board Bool) : Option (Board Bool × List Coord × List Coord) :=
  let s := scan board
  if s.born.length ≤ BOARD_SIZE ∧ s.died.length ≤ BOARD_SIZE then
    some
      (s.died.foldl (fun b c => set_cell b c false)
        (s.born.foldl (fun b c => set_cell b c true) board),
       s.born, s.died)
  else none

/-- Reference full scan, following the specification (strategy (a) of
section 4.2): evaluate run_cell for every one of the width times height
cells against the previous-generation snapshot and apply the result,
leaving a cell with no verdict unchanged. -/
def full_scan_step (board : Board Bool) : Board Bool :=
  fun x y =>
    match run_cell board x y with
    | some v => v
    | none => board x y

/-- The next board of one run_once call, used to iterate generations; a
panicking call (which never happens, see the capacity theorems) would
leave the board as is. -/
def step_board (board : Board Bool) : Board Bool :=
  match run_once board with
  | some (b, _, _) => b
  | none => board

/-- A coordinate receives a visit during the scan: it is the clamped
3 by 3 neighbor of some cell alive on the pre-step board. -/
def markedCell (board : Board Bool) (c : Coord) : Prop :=
  ∃ x y, board x y = true ∧ ∃ dx ∈ offsets, ∃ dy ∈ offsets, clamp_coord x y dx dy = c

/-- The invariant the scan state keeps: born holds exactly the visited
cells with verdict some true, died exactly those with verdict some false,
both without duplicate, and every visited cell is a clamped neighbor of a
live cell. -/
def ScanInv (board : Board Bool) (s : ScanState) : Prop :=
  (∀ a : Coord, a ∈ s.born ↔ s.upd a.1 a.2 = true ∧ run_cell board a.1 a.2 = some true) ∧
  (∀ a : Coord, a ∈ s.died ↔ s.upd a.1 a.2 = true ∧ run_cell board a.1 a.2 = some false) ∧
  s.born.Nodup ∧ s.died.Nodup ∧
  (∀ a : Coord, s.upd a.1 a.2 = true → markedCell board a)

/- Key constants used by the main loop (eadk.rs lines 225 to 270). -/
namespace key

def LEFT : Nat := 0
def UP : Nat := 1
def DOWN : Nat := 2
def RIGHT : Nat := 3
def XNT : Nat := 14
def VAR : Nat := 15
def TOOLBOX : Nat := 16
def PLUS : Nat := 45
def MINUS : Nat := 46
def EXE : Nat := 52

end key

/-- key_down of eadk.rs line 217: bit k of the u64 keyboard snapshot,
read with a wrapping shift (shift amount taken modulo 64). -/
def key_down (ks : Nat) (k : Nat) : Bool :=
  (ks >>> (k % 64)) &&& 1 != 0

/-- The state owned by the main loop of _eadk_main (main.rs lines 124 to
127), plus one instrumentation counter: steps counts the run_once
invocations made so far. -/
structure LoopState : Type where
  state : AppState
  pointer : Nat × Nat
  board : Board Bool
  steps : Nat

/-- The state _eadk_main builds before its loop (main.rs lines 124 to
127): Editor mode, pointer at the board center, all-dead board. -/
def init_state : LoopState :=
  ⟨AppState.Editor, (LINE_SIZE / 2, COLUMN_SIZE / 2), fun _ _ => false, 0⟩

/-- One iteration of the main loop of _eadk_main (main.rs lines 129 to
193) under one keyboard snapshot: mode-switch keys first (lines 132 to
140), then the mode-specific block. The Editor block indexes the board at
the pointer (line 144), a panic when the pointer were out of bounds,
modelled by none; the pointer moves are lines 153 to 166, the cell edits
lines 145 to 151. Running always steps once; StepByStep steps once when
the EXE key reads down. Draw calls and sleeps are elided. -/
def loop_iter (s : LoopState) (ks : Nat) : Option LoopState :=
  let st1 :=
    if key_down ks key.XNT then AppState.Editor
    else if key_down ks key.VAR then AppState.Running
    else if key_down ks key.TOOLBOX then AppState.StepByStep
    else s.state
  match st1 with
  | AppState.Editor =>
    if h : s.pointer.1 < LINE_SIZE ∧ s.pointer.2 < COLUMN_SIZE then
      let x : Fin LINE_SIZE := ⟨s.pointer.1, h.1⟩
      let y : Fin COLUMN_SIZE := ⟨s.pointer.2, h.2⟩
      let b1 :=
        if key_down ks key.EXE then set_cell s.board (x, y) (! s.board x y)
        else if key_down ks key.PLUS then set_cell s.board (x, y) true
        else if key_down ks key.MINUS then set_cell s.board (x, y) false
        else s.board
      -- the up/down block (lines 153 to 159) touches only pointer.1 (the y
      -- component) and the left/right block (lines 160 to 166) touches only
      -- pointer.0 (the x component), so the two components update independently
      let py :=
        if key_down ks key.UP ∧ 0 < s.pointer.2 then s.pointer.2 - 1
        else if key_down ks key.DOWN ∧ s.pointer.2 < COLUMN_SIZE - 1 then s.pointer.2 + 1
        else s.pointer.2
      let px :=
        if key_down ks key.LEFT ∧ 0 < s.pointer.1 then s.pointer.1 - 1
        else if key_down ks key.RIGHT ∧ s.pointer.1 < LINE_SIZE - 1 then s.pointer.1 + 1
        else s.pointer.1
      some ⟨AppState.Editor, (px, py), b1, s.steps⟩
    else none
  | AppState.Running =>
    match run_once s.board with
    | some (b1, _, _) => some ⟨AppState.Running, s.pointer, b1, s.steps + 1⟩
    | none => none
  | AppState.StepByStep =>
    if key_down ks key.EXE then
      match run_once s.board with
      | some (b1, _, _) => some ⟨AppState.StepByStep, s.pointer, b1, s.steps + 1⟩
      | none => none
    else some ⟨AppState.StepByStep, s.pointer, s.board, s.steps⟩

/-- The main loop run over a finite list of per-iteration keyboard
snapshots (the loop of main.rs lines 129 to 193 polls one snapshot per
iteration at line 130). -/
def run_loop (s : LoopState) : List Nat → Option LoopState
  | [] => some s
  | ks :: rest =>
    match loop_iter s ks with
    | some s1 => run_loop s1 rest
    | none => none

/-- Modelled from the spec: the number of rising edges of key k over a
snapshot sequence. The glossary of the specification defines an input
edge as the transition of a key from not-pressed to pressed, detected by
comparing consecutive poll snapshots; before the first snapshot the key
counts as not pressed. The source maintains no such edge detector. -/
def rising_edges_from (k : Nat) (prev : Bool) : List Nat → Nat
  | [] => 0
  | ks :: rest =>
    (if ¬ prev ∧ key_down ks k then 1 else 0) + rising_edges_from k (key_down ks k) rest

/-- Modelled from the spec: rising edges of key k over a whole snapshot
sequence, the key not pressed before the first snapshot. -/
def rising_edges (k : Nat) (l : List Nat) : Nat :=
  rising_edges_from k false l

/-- The board holding exactly the 2 by 2 block of live cells with upper
left corner (i, j) (a concrete board family, used for the still-life
claim). -/
def block_board (i j : Nat) : Board Bool :=
  fun x y => decide ((x.val = i ∨ x.val = i + 1) ∧ (y.val = j ∨ y.val = j + 1))

/-- The board holding exactly the live cells (0, 1), (1, 0) and (1, 1)
(a concrete board, used for the corner-count claim). -/
def corner_board : Board Bool :=
  fun x y =>
    decide ((x.val = 0 ∧ y.val = 1) ∨ (x.val = 1 ∧ y.val = 0) ∨ (x.val = 1 ∧ y.val = 1))

theorem LINE_SIZE_pos : 0 < LINE_SIZE := by decide

theorem COLUMN_SIZE_pos : 0 < COLUMN_SIZE := by decide

theorem visit_upd {board : Board Bool} {s : ScanState} {c : Coord}
    (i : Fin LINE_SIZE) (j : Fin COLUMN_SIZE) :
    (visit board s c).upd i j = true ↔ s.upd i j = true ∨ (i = c.1 ∧ j = c.2) := by
  cases h : s.upd c.1 c.2 with
  | true =>
    simp only [visit, h, if_true]
    constructor
    · exact Or.inl
    · rintro (h1 | ⟨rfl, rfl⟩)
      · exact h1
      · exact h
  | false =>
    simp only [visit, h, Bool.false_eq_true, if_false]
    by_cases hij : i = c.1 ∧ j = c.2 <;> simp [hij]

theorem visit_upd_mono {board : Board Bool} {s : ScanState} {c : Coord}
    {i : Fin LINE_SIZE} {j : Fin COLUMN_SIZE} (h : s.upd i j = true) :
    (visit board s c).upd i j = true :=
  (visit_upd i j).mpr (Or.inl h)

theorem visit_upd_self {board : Board Bool} {s : ScanState} {c : Coord} :
    (visit board s c).upd c.1 c.2 = true :=
  (visit_upd c.1 c.2).mpr (Or.inr ⟨rfl, rfl⟩)

theorem visit_born_mem {board : Board Bool} {s : ScanState} {c : Coord} (a : Coord) :
    a ∈ (visit board s c).born ↔
      a ∈ s.born ∨ (a = c ∧ s.upd c.1 c.2 = false ∧ run_cell board c.1 c.2 = some true) := by
  cases h : s.upd c.1 c.2 with
  | true => simp [visit, h]
  | false =>
    simp only [visit, h, Bool.false_eq_true, if_false]
    by_cases hr : run_cell board c.1 c.2 = some true <;> simp [hr]

theorem visit_died_mem {board : Board Bool} {s : ScanState} {c : Coord} (a : Coord) :
    a ∈ (visit board s c).died ↔
      a ∈ s.died ∨ (a = c ∧ s.upd c.1 c.2 = false ∧ run_cell board c.1 c.2 = some false) := by
  cases h : s.upd c.1 c.2 with
  | true => simp [visit, h]
  | false =>
    simp only [visit, h, Bool.false_eq_true, if_false]
    by_cases hr : run_cell board c.1 c.2 = some false <;> simp [hr]

theorem marked_clamp {board : Board Bool} {x : Fin LINE_SIZE} {y : Fin COLUMN_SIZE}
    (hb : board x y = true) {dx dy : Int} (hdx : dx ∈ offsets) (hdy : dy ∈ offsets) :
    markedCell board (clamp_coord x y dx dy) :=
  ⟨x, y, hb, dx, hdx, dy, hdy, rfl⟩

theorem visit_inv {board : Board Bool} {s : ScanState} {c : Coord}
    (hs : ScanInv board s) (hc : markedCell board c) : ScanInv board (visit board s c) := by
  obtain ⟨hborn, hdied, hnb, hnd, hupd⟩ := hs
  refine ⟨?_, ?_, ?_, ?_, ?_⟩
  · intro a
    rw [visit_born_mem, visit_upd, hborn]
    constructor
    · rintro (⟨hu, hr⟩ | ⟨rfl, hu, hr⟩)
      · exact ⟨Or.inl hu, hr⟩
      · exact ⟨Or.inr ⟨rfl, rfl⟩, hr⟩
    · rintro ⟨hu | ⟨h1, h2⟩, hr⟩
      · exact Or.inl ⟨hu, hr⟩
      · have ha : a = c := Prod.ext h1 h2
        subst ha
        cases hu' : s.upd a.1 a.2 with
        | true => exact Or.inl ⟨rfl, hr⟩
        | false => exact Or.inr ⟨rfl, rfl, hr⟩
  · intro a
    rw [visit_died_mem, visit_upd, hdied]
    constructor
    · rintro (⟨hu, hr⟩ | ⟨rfl, hu, hr⟩)
      · exact ⟨Or.inl hu, hr⟩
      · exact ⟨Or.inr ⟨rfl, rfl⟩, hr⟩
    · rintro ⟨hu | ⟨h1, h2⟩, hr⟩
      · exact Or.inl ⟨hu, hr⟩
      · have ha : a = c := Prod.ext h1 h2
        subst ha
        cases hu' : s.upd a.1 a.2 with
        | true => exact Or.inl ⟨rfl, hr⟩
        | false => exact Or.inr ⟨rfl, rfl, hr⟩
  · cases h : s.upd c.1 c.2 with
    | true => simpa [visit, h] using hnb
    | false =>
      simp only [visit, h, Bool.false_eq_true, if_false]
      by_cases hr : run_cell board c.1 c.2 = some true <;> simp [hr, List.nodup_append, hnb]
      intro hmem
      exact absurd ((hborn c).mp hmem).1 (by simp [h])
  · cases h : s.upd c.1 c.2 with
    | true => simpa [visit, h] using hnd
    | false =>
      simp only [visit, h, Bool.false_eq_true, if_false]
      by_cases hr : run_cell board c.1 c.2 = some false <;> simp [hr, List.nodup_append, hnd]
      intro hmem
      exact absurd ((hdied c).mp hmem).1 (by simp [h])
  · intro a ha
    rcases (visit_upd a.1 a.2).mp ha with hu | ⟨h1, h2⟩
    · exact hupd a hu
    · have : a = c := Prod.ext h1 h2
      rw [this]
      exact hc

theorem scan_cell_inv {board : Board Bool} {s : ScanState} {c : Coord}
    (hs : ScanInv board s) : ScanInv board (scan_cell board s c) := by
  unfold scan_cell
  cases hc : board c.1 c.2 with
  | false => simpa using hs
  | true =>
    simp only [if_true, offsets, List.foldl_cons, List.foldl_nil]
    iterate 9 refine visit_inv ?_ (marked_clamp hc (by decide) (by decide))
    exact hs

theorem scan_cell_upd_mono {board : Board Bool} {s : ScanState} {c : Coord}
    {i : Fin LINE_SIZE} {j : Fin COLUMN_SIZE} (h : s.upd i j = true) :
    (scan_cell board s c).upd i j = true := by
  unfold scan_cell
  cases hc : board c.1 c.2 with
  | false => simpa using h
  | true =>
    simp only [if_true, offsets, List.foldl_cons, List.foldl_nil]
    iterate 9 apply visit_upd_mono
    exact h

theorem scan_cell_covers {board : Board Bool} {s : ScanState} {c : Coord}
    (hc : board c.1 c.2 = true) {dx dy : Int} (hdx : dx ∈ offsets) (hdy : dy ∈ offsets) :
    (scan_cell board s c).upd (clamp_coord c.1 c.2 dx dy).1 (clamp_coord c.1 c.2 dx dy).2
      = true := by
  unfold scan_cell
  rw [hc, if_pos rfl]
  simp only [offsets, List.mem_cons, List.not_mem_nil, or_false] at hdx hdy
  simp only [offsets, List.foldl_cons, List.foldl_nil]
  rcases hdx with rfl | rfl | rfl <;> rcases hdy with rfl | rfl | rfl <;>
    repeat first
      | exact visit_upd_self
      | apply visit_upd_mono

theorem fold_scan_inv {board : Board Bool} (l : List Coord) (s : ScanState)
    (hs : ScanInv board s) : ScanInv board (l.foldl (scan_cell board) s) := by
  induction l generalizing s with
  | nil => simpa using hs
  | cons c rest ih =>
    simp only [List.foldl_cons]
    exact ih _ (scan_cell_inv hs)

theorem fold_scan_upd_mono {board : Board Bool} (l : List Coord) (s : ScanState)
    {i : Fin LINE_SIZE} {j : Fin COLUMN_SIZE} (h : s.upd i j = true) :
    (l.foldl (scan_cell board) s).upd i j = true := by
  induction l generalizing s with
  | nil => simpa using h
  | cons c rest ih =>
    simp only [List.foldl_cons]
    exact ih _ (scan_cell_upd_mono h)

theorem fold_scan_covers {board : Board Bool} (l : List Coord) (s : ScanState)
    {c : Coord} (hcl : c ∈ l) (hc : board c.1 c.2 = true)
    {dx dy : Int} (hdx : dx ∈ offsets) (hdy : dy ∈ offsets) :
    (l.foldl (scan_cell board) s).upd
      (clamp_coord c.1 c.2 dx dy).1 (clamp_coord c.1 c.2 dx dy).2 = true := by
  induction l generalizing s with
  | nil => cases hcl
  | cons a rest ih =>
    simp only [List.foldl_cons]
    rcases List.mem_cons.mp hcl with rfl | hmem
    · exact fold_scan_upd_mono rest _ (scan_cell_covers hc hdx hdy)
    · exact ih _ hmem

theorem mem_allCoords (c : Coord) : c ∈ allCoords := by
  simp only [allCoords, List.mem_flatMap, List.mem_map, List.mem_finRange]
  exact ⟨c.1, trivial, c.2, trivial, rfl⟩

theorem scan_init_inv (board : Board Bool) :
    ScanInv board ⟨fun _ _ => false, [], []⟩ :=
  ⟨fun a => ⟨fun h => absurd h (List.not_mem_nil a), fun h => absurd h.1 Bool.false_ne_true⟩,
   fun a => ⟨fun h => absurd h (List.not_mem_nil a), fun h => absurd h.1 Bool.false_ne_true⟩,
   List.nodup_nil, List.nodup_nil, fun _ h => absurd h Bool.false_ne_true⟩

theorem scan_inv (board : Board Bool) : ScanInv board (scan board) :=
  fold_scan_inv allCoords _ (scan_init_inv board)

set_option maxRecDepth 100000 in
theorem scan_upd_iff (board : Board Bool) (a : Coord) :
    (scan board).upd a.1 a.2 = true ↔ markedCell board a := by
  constructor
  · exact (scan_inv board).2.2.2.2 a
  · rintro ⟨x, y, hb, dx, hdx, dy, hdy, rfl⟩
    exact fold_scan_covers allCoords _ (mem_allCoords (x, y)) hb hdx hdy

theorem get_cell_pos {board : Board Bool} {p : Int × Int} (h : get_cell board p ≠ 0) :
    ∃ (x : Fin LINE_SIZE) (y : Fin COLUMN_SIZE),
      (x.val : Int) = p.1 ∧ (y.val : Int) = p.2 ∧ board x y = true := by
  unfold get_cell at h
  split at h
  · exact absurd rfl h
  · rename_i hin
    split at h
    · rename_i hb
      refine ⟨⟨p.1.toNat, by omega⟩, ⟨p.2.toNat, by omega⟩, ?_, ?_, hb⟩
      · show ((p.1.toNat : Nat) : Int) = p.1
        omega
      · show ((p.2.toNat : Nat) : Int) = p.2
        omega
    · exact absurd rfl h

theorem marked_of_near {board : Board Bool} {a : Coord} {x : Fin LINE_SIZE}
    {y : Fin COLUMN_SIZE} (hb : board x y = true)
    (h1 : (x.val : Int) - 1 ≤ (a.1.val : Int)) (h2 : (a.1.val : Int) ≤ (x.val : Int) + 1)
    (h3 : (y.val : Int) - 1 ≤ (a.2.val : Int)) (h4 : (a.2.val : Int) ≤ (y.val : Int) + 1) :
    markedCell board a := by
  refine ⟨x, y, hb, (a.1.val : Int) - (x.val : Int), ?_, (a.2.val : Int) - (y.val : Int), ?_, ?_⟩
  · simp only [offsets, List.mem_cons, List.not_mem_nil, or_false]
    omega
  · simp only [offsets, List.mem_cons, List.not_mem_nil, or_false]
    omega
  · have ha1 := a.1.isLt
    have ha2 := a.2.isLt
    apply Prod.ext <;> apply Fin.ext <;> simp only [clamp_coord] <;> omega

theorem not_marked_run_cell {board : Board Bool} {a : Coord}
    (hm : ¬ markedCell board a) : run_cell board a.1 a.2 = none := by
  have hdead : board a.1 a.2 = false := by
    cases hb : board a.1 a.2 with
    | false => rfl
    | true => exact absurd (marked_of_near hb (by omega) (by omega) (by omega) (by omega)) hm
  have hz : ∀ p : Int × Int, (a.1.val : Int) - 1 ≤ p.1 → p.1 ≤ (a.1.val : Int) + 1 →
      (a.2.val : Int) - 1 ≤ p.2 → p.2 ≤ (a.2.val : Int) + 1 → get_cell board p = 0 := by
    intro p hp1 hp2 hp3 hp4
    by_contra hne
    obtain ⟨x, y, hx, hy, hb⟩ := get_cell_pos hne
    exact hm (marked_of_near hb (by omega) (by omega) (by omega) (by omega))
  have hn : neighbor_count board a.1 a.2 = 0 := by
    unfold neighbor_count
    rw [hz, hz, hz, hz, hz, hz, hz, hz] <;> omega
  simp [run_cell, hn, hdead]

theorem mem_scan_born (board : Board Bool) (a : Coord) :
    a ∈ (scan board).born ↔ markedCell board a ∧ run_cell board a.1 a.2 = some true := by
  rw [(scan_inv board).1 a, scan_upd_iff]

theorem mem_scan_died (board : Board Bool) (a : Coord) :
    a ∈ (scan board).died ↔ markedCell board a ∧ run_cell board a.1 a.2 = some false := by
  rw [(scan_inv board).2.1 a, scan_upd_iff]

theorem foldl_set_cell (l : List Coord) (v : Bool) (b : Board Bool)
    (i : Fin LINE_SIZE) (j : Fin COLUMN_SIZE) :
    (l.foldl (fun bd c => set_cell bd c v) b) i j = if (i, j) ∈ l then v else b i j := by
  induction l generalizing b with
  | nil => simp
  | cons c rest ih =>
    simp only [List.foldl_cons, ih, List.mem_cons]
    by_cases hc : (i, j) = c
    · have hcc : i = c.1 ∧ j = c.2 := by rw [← hc]; exact ⟨rfl, rfl⟩
      by_cases hm : (i, j) ∈ rest <;> simp [hm, hc, set_cell, hcc]
    · have hcc : ¬ (i = c.1 ∧ j = c.2) := fun h => hc (Prod.ext h.1 h.2)
      by_cases hm : (i, j) ∈ rest <;> simp [hm, hc, set_cell, hcc]

theorem card_coord : Fintype.card Coord = BOARD_SIZE := by
  rw [Fintype.card_prod, Fintype.card_fin, Fintype.card_fin]
  rfl

theorem scan_lengths (board : Board Bool) :
    (scan board).born.length ≤ BOARD_SIZE ∧ (scan board).died.length ≤ BOARD_SIZE := by
  rw [← card_coord]
  exact ⟨(scan_inv board).2.2.1.length_le_card, (scan_inv board).2.2.2.1.length_le_card⟩

theorem run_once_eq (board : Board Bool) :
    run_once board = some (full_scan_step board, (scan board).born, (scan board).died) := by
  have happ : (scan board).died.foldl (fun b c => set_cell b c false)
      ((scan board).born.foldl (fun b c => set_cell b c true) board) = full_scan_step board := by
    funext i j
    rw [foldl_set_cell, foldl_set_cell]
    rcases hr : run_cell board i j with _ | v
    · have hb : (i, j) ∉ (scan board).born := by
        rw [mem_scan_born]
        rintro ⟨-, h⟩
        rw [hr] at h
        cases h
      have hd : (i, j) ∉ (scan board).died := by
        rw [mem_scan_died]
        rintro ⟨-, h⟩
        rw [hr] at h
        cases h
      simp [hb, hd, full_scan_step, hr]
    · have hmk : markedCell board (i, j) := by
        by_contra h
        rw [not_marked_run_cell h] at hr
        cases hr
      cases v with
      | true =>
        have hb : (i, j) ∈ (scan board).born := (mem_scan_born board (i, j)).mpr ⟨hmk, hr⟩
        have hd : (i, j) ∉ (scan board).died := by
          rw [mem_scan_died]
          rintro ⟨-, h⟩
          rw [hr] at h
          cases h
        simp [hb, hd, full_scan_step, hr]
      | false =>
        have hd : (i, j) ∈ (scan board).died := (mem_scan_died board (i, j)).mpr ⟨hmk, hr⟩
        simp [hd, full_scan_step, hr]
  unfold run_once
  rw [if_pos (scan_lengths board), happ]

theorem run_cell_true_iff (board : Board Bool) (x : Fin LINE_SIZE) (y : Fin COLUMN_SIZE) :
    run_cell board x y = some true ↔
      neighbor_count board x y = 3 ∧ board x y = false := by
  unfold run_cell
  split_ifs with h1 h2
  · simp [h1]
  · simp only [Option.some.injEq, Bool.false_eq_true, false_iff]
    rintro ⟨hn, -⟩
    exact h2.2.1 hn
  · simp only [reduceCtorEq, false_iff]
    exact h1
theorem run_cell_false_iff (board : Board Bool) (x : Fin LINE_SIZE) (y : Fin COLUMN_SIZE) :
    run_cell board x y = some false ↔
      neighbor_count board x y ≠ 2 ∧ neighbor_count board x y ≠ 3 ∧ board x y = true := by
  unfold run_cell
  split_ifs with h1 h2
  · simp only [Option.some.injEq, Bool.true_eq_false, false_iff]
    rintro ⟨-, hn, -⟩
    exact hn h1.1
  · simp [h2]
  · simp only [reduceCtorEq, false_iff]
    exact h2

theorem run_cell_none_iff (board : Board Bool) (x : Fin LINE_SIZE) (y : Fin COLUMN_SIZE) :
    run_cell board x y = none ↔
      ¬ (neighbor_count board x y = 3 ∧ board x y = false) ∧
        ¬ (neighbor_count board x y ≠ 2 ∧ neighbor_count board x y ≠ 3 ∧ board x y = true) := by
  unfold run_cell
  split_ifs with h1 h2
  · simp only [reduceCtorEq, false_iff]
    rintro ⟨h, -⟩
    exact h h1
  · simp only [reduceCtorEq, false_iff]
    rintro ⟨-, h⟩
    exact h h2
  · simp [h1, h2]

/-- C1: for every board and every in-bounds cell, one run_once call
applies the Conway transition rule computed against the pre-step board: a
dead cell with exactly 3 live neighbors becomes alive; a live cell with a
live-neighbor count not in 2 or 3 becomes dead; every other cell keeps
its prior value and is reported in neither emitted collection. -/
theorem C1_run_once_applies_conway_rule (board : Board Bool)
    (x : Fin LINE_SIZE) (y : Fin COLUMN_SIZE) :
    ∃ b1 born died, run_once board = some (b1, born, died) ∧
      (board x y = false ∧ neighbor_count board x y = 3 → b1 x y = true) ∧
      (board x y = true ∧ neighbor_count board x y ≠ 2 ∧ neighbor_count board x y ≠ 3 →
        b1 x y = false) ∧
      (¬ (board x y = false ∧ neighbor_count board x y = 3) ∧
        ¬ (board x y = true ∧ neighbor_count board x y ≠ 2 ∧ neighbor_count board x y ≠ 3) →
        b1 x y = board x y ∧ (x, y) ∉ born ∧ (x, y) ∉ died) := by
  refine ⟨full_scan_step board, (scan board).born, (scan board).died, run_once_eq board,
    ?_, ?_, ?_⟩
  · rintro ⟨hb, hn⟩
    simp [full_scan_step, (run_cell_true_iff board x y).mpr ⟨hn, hb⟩]
  · rintro ⟨hb, hn2, hn3⟩
    simp [full_scan_step, (run_cell_false_iff board x y).mpr ⟨hn2, hn3, hb⟩]
  · rintro ⟨h1, h2⟩
    have hnone : run_cell board x y = none :=
      (run_cell_none_iff board x y).mpr
        ⟨fun h => h1 ⟨h.2, h.1⟩, fun h => h2 ⟨h.2.2, h.1, h.2.1⟩⟩
    refine ⟨by simp [full_scan_step, hnone], ?_, ?_⟩
    · rw [mem_scan_born]
      rintro ⟨-, h⟩
      rw [hnone] at h
      cases h
    · rw [mem_scan_died]
      rintro ⟨-, h⟩
      rw [hnone] at h
      cases h

/-- C2: the sparse-scan generation step of run_once (starting only from
currently-alive cells, each cell of their 3 by 3 neighborhoods evaluated
at most once thanks to the visited marker) produces a next board
identical to the reference full scan that evaluates the rule for all
width times height cells against the previous-generation snapshot. -/
theorem C2_sparse_scan_refines_full_scan (board : Board Bool) :
    Option.map Prod.fst (run_once board) = some (full_scan_step board) := by
  rw [run_once_eq]
  rfl

/-- C3: one run_once call advances exactly one generation (the full-scan
next board), leaves every cell outside the emitted born and died
collections bit-identical to its prior value, and the union of born and
died is exactly the set of coordinates whose state changed. -/
theorem C3_dirty_set_exactly_changes (board : Board Bool) :
    ∃ b1 born died, run_once board = some (b1, born, died) ∧ b1 = full_scan_step board ∧
      ∀ c : Coord, ((c ∈ born ∨ c ∈ died) ↔ b1 c.1 c.2 ≠ board c.1 c.2) ∧
        (c ∉ born ∧ c ∉ died → b1 c.1 c.2 = board c.1 c.2) := by
  refine ⟨_, _, _, run_once_eq board, rfl, fun c => ?_⟩
  have hiff : (c ∈ (scan board).born ∨ c ∈ (scan board).died) ↔
      full_scan_step board c.1 c.2 ≠ board c.1 c.2 := by
    rw [mem_scan_born, mem_scan_died]
    rcases hr : run_cell board c.1 c.2 with _ | v
    · simp [full_scan_step, hr]
    · have hmk : markedCell board c := by
        by_contra h
        rw [not_marked_run_cell h] at hr
        cases hr
      cases v with
      | true =>
        have hb := (run_cell_true_iff board c.1 c.2).mp hr
        simp [full_scan_step, hr, hmk, hb.2]
      | false =>
        have hb := (run_cell_false_iff board c.1 c.2).mp hr
        simp [full_scan_step, hr, hmk, hb.2.2]
  refine ⟨hiff, fun h => ?_⟩
  by_contra hne
  rcases hiff.mpr hne with hm | hm
  · exact h.1 hm
  · exact h.2 hm

/-- C6: run_once cannot fail on any board: the born and died collections
of capacity BOARD_SIZE never overflow, because the visited marker makes
each cell enter at most one of the two collections at most once per
generation. -/
theorem C6_capacity_never_overflows (board : Board Bool) :
    ∃ b1 born died, run_once board = some (b1, born, died) ∧
      born.length + died.length ≤ BOARD_SIZE ∧ (born ++ died).Nodup := by
  have hdisj : (scan board).born.Disjoint (scan board).died := by
    intro a ha hd
    have h1 := ((scan_inv board).1 a).mp ha
    have h2 := ((scan_inv board).2.1 a).mp hd
    rw [h1.2] at h2
    cases h2.2
  have hnd : ((scan board).born ++ (scan board).died).Nodup :=
    (scan_inv board).2.2.1.append (scan_inv board).2.2.2.1 hdisj
  refine ⟨_, _, _, run_once_eq board, ?_, hnd⟩
  have hlen := hnd.length_le_card
  rw [card_coord, List.length_append] at hlen
  exact hlen

/-- C5: neighbor counting is zero-padded and never wraps: any candidate
neighbor coordinate outside the board contributes 0, and on the board
where exactly (0, 1), (1, 0) and (1, 1) are alive the neighbor count of
corner cell (0, 0) is exactly 3. -/
theorem C5_neighbor_count_zero_padded :
    (∀ (board : Board Bool) (p : Int × Int),
        p.1 < 0 ∨ p.2 < 0 ∨ (LINE_SIZE : Int) ≤ p.1 ∨ (COLUMN_SIZE : Int) ≤ p.2 →
        get_cell board p = 0) ∧
    neighbor_count corner_board ⟨0, LINE_SIZE_pos⟩ ⟨0, COLUMN_SIZE_pos⟩ = 3 := by
  constructor
  · intro board p hp
    unfold get_cell
    split
    · rfl
    · omega
  · decide

/-- C10: at startup, before the first loop iteration, the machine is in
Editor mode, the cursor is at the board center (width / 2, height / 2),
and every cell of the board is dead. -/
theorem C10_initial_state :
    init_state.state = AppState.Editor ∧
      init_state.pointer = (LINE_SIZE / 2, COLUMN_SIZE / 2) ∧
      ∀ (x : Fin LINE_SIZE) (y : Fin COLUMN_SIZE), init_state.board x y = false :=
  ⟨rfl, rfl, fun _ _ => rfl⟩

theorem get_cell_block {i j : Nat} (hi : i + 1 < LINE_SIZE) (hj : j + 1 < COLUMN_SIZE)
    (p : Int × Int) :
    get_cell (block_board i j) p =
      if (p.1 = (i : Int) ∨ p.1 = (i : Int) + 1) ∧ (p.2 = (j : Int) ∨ p.2 = (j : Int) + 1)
      then 1 else 0 := by
  unfold get_cell
  split
  · rename_i hout
    rw [if_neg]
    rintro ⟨h1, h2⟩
    omega
  · rename_i hin
    by_cases hP : (p.1 = (i : Int) ∨ p.1 = (i : Int) + 1) ∧
        (p.2 = (j : Int) ∨ p.2 = (j : Int) + 1)
    · rw [if_pos hP]
      have hv : block_board i j ⟨p.1.toNat, by omega⟩ ⟨p.2.toNat, by omega⟩ = true := by
        unfold block_board
        rw [decide_eq_true_eq]
        show (p.1.toNat = i ∨ p.1.toNat = i + 1) ∧ (p.2.toNat = j ∨ p.2.toNat = j + 1)
        omega
      simp [hv]
    · rw [if_neg hP]
      have hv : block_board i j ⟨p.1.toNat, by omega⟩ ⟨p.2.toNat, by omega⟩ = false := by
        unfold block_board
        rw [decide_eq_false_iff_not]
        show ¬ ((p.1.toNat = i ∨ p.1.toNat = i + 1) ∧ (p.2.toNat = j ∨ p.2.toNat = j + 1))
        omega
      simp [hv]

theorem block_board_alive_iff {i j : Nat} (x : Fin LINE_SIZE) (y : Fin COLUMN_SIZE) :
    block_board i j x y = true ↔
      (x.val = i ∨ x.val = i + 1) ∧ (y.val = j ∨ y.val = j + 1) := by
  unfold block_board
  rw [decide_eq_true_eq]

theorem if_and_one {A B : Prop} [Decidable A] [Decidable B] :
    (if A ∧ B then (1 : Nat) else 0) = (if A then 1 else 0) * (if B then 1 else 0) := by
  by_cases hA : A <;> by_cases hB : B <;> simp [hA, hB]

set_option maxHeartbeats 2000000 in
theorem neighbor_count_block {i j : Nat} (hi : i + 1 < LINE_SIZE) (hj : j + 1 < COLUMN_SIZE)
    (x : Fin LINE_SIZE) (y : Fin COLUMN_SIZE) :
    (block_board i j x y = true → neighbor_count (block_board i j) x y = 3) ∧
      (block_board i j x y = false → neighbor_count (block_board i j) x y ≤ 2) := by
  have ha : block_board i j x y = true ↔
      (x.val = i ∨ x.val = i + 1) ∧ (y.val = j ∨ y.val = j + 1) := block_board_alive_iff x y
  have hd : block_board i j x y = false ↔
      ¬ ((x.val = i ∨ x.val = i + 1) ∧ (y.val = j ∨ y.val = j + 1)) := by
    rw [← ha]
    cases block_board i j x y <;> simp
  rw [ha, hd]
  unfold neighbor_count
  rw [get_cell_block hi hj, get_cell_block hi hj, get_cell_block hi hj, get_cell_block hi hj,
    get_cell_block hi hj, get_cell_block hi hj, get_cell_block hi hj, get_cell_block hi hj]
  rw [if_and_one, if_and_one, if_and_one, if_and_one, if_and_one, if_and_one, if_and_one,
    if_and_one]
  constructor <;> intro hb <;> split_ifs <;> omega

theorem run_cell_block_none {i j : Nat} (hi : i + 1 < LINE_SIZE) (hj : j + 1 < COLUMN_SIZE)
    (x : Fin LINE_SIZE) (y : Fin COLUMN_SIZE) :
    run_cell (block_board i j) x y = none := by
  have hc := neighbor_count_block hi hj x y
  cases hb : block_board i j x y with
  | true =>
    have h3 := hc.1 hb
    unfold run_cell
    rw [if_neg, if_neg]
    · rintro ⟨-, h, -⟩
      exact h h3
    · rintro ⟨-, h⟩
      rw [hb] at h
      cases h
  | false =>
    have h2 := hc.2 hb
    unfold run_cell
    rw [if_neg, if_neg]
    · rintro ⟨-, -, h⟩
      rw [hb] at h
      cases h
    · rintro ⟨h, -⟩
      omega

theorem block_fixed {i j : Nat} (hi : i + 1 < LINE_SIZE) (hj : j + 1 < COLUMN_SIZE) :
    run_once (block_board i j) = some (block_board i j, [], []) := by
  have hfull : full_scan_step (block_board i j) = block_board i j := by
    funext a b
    unfold full_scan_step
    rw [run_cell_block_none hi hj]
  have hborn : (scan (block_board i j)).born = [] := by
    rw [List.eq_nil_iff_forall_not_mem]
    intro a
    rw [mem_scan_born]
    rintro ⟨-, h⟩
    rw [run_cell_block_none hi hj] at h
    cases h
  have hdied : (scan (block_board i j)).died = [] := by
    rw [List.eq_nil_iff_forall_not_mem]
    intro a
    rw [mem_scan_died]
    rintro ⟨-, h⟩
    rw [run_cell_block_none hi hj] at h
    cases h
  rw [run_once_eq, hfull, hborn, hdied]

/-- C9: every in-bounds placement of a 2 by 2 block of live cells on an
otherwise dead board is a still life: run_once emits no births and no
deaths, and the board is unchanged after any number of steps. -/
theorem C9_block_still_life (i j : Nat) (hi : i + 1 < LINE_SIZE) (hj : j + 1 < COLUMN_SIZE) :
    run_once (block_board i j) = some (block_board i j, [], []) ∧
      ∀ n : Nat, step_board^[n] (block_board i j) = block_board i j := by
  refine ⟨block_fixed hi hj, Function.iterate_fixed ?_⟩
  unfold step_board
  rw [block_fixed hi hj]

/-- C9 witness: the still-life facts at the concrete placement (0, 0). -/
theorem C9_block_still_life_witness :
    run_once (block_board 0 0) = some (block_board 0 0, [], []) ∧
      ∀ n : Nat, step_board^[n] (block_board 0 0) = block_board 0 0 :=
  C9_block_still_life 0 0 (by decide) (by decide)

theorem loop_iter_editor_eq {s : LoopState} {ks : Nat} (hs : s.state = AppState.Editor)
    (hv : key_down ks key.VAR = false) (ht : key_down ks key.TOOLBOX = false)
    (hp1 : s.pointer.1 < LINE_SIZE) (hp2 : s.pointer.2 < COLUMN_SIZE) :
    loop_iter s ks = some
      ⟨AppState.Editor,
       (if key_down ks key.LEFT ∧ 0 < s.pointer.1 then s.pointer.1 - 1
        else if key_down ks key.RIGHT ∧ s.pointer.1 < LINE_SIZE - 1 then s.pointer.1 + 1
        else s.pointer.1,
        if key_down ks key.UP ∧ 0 < s.pointer.2 then s.pointer.2 - 1
        else if key_down ks key.DOWN ∧ s.pointer.2 < COLUMN_SIZE - 1 then s.pointer.2 + 1
        else s.pointer.2),
       (if key_down ks key.EXE then
          set_cell s.board (⟨s.pointer.1, hp1⟩, ⟨s.pointer.2, hp2⟩)
            (! s.board ⟨s.pointer.1, hp1⟩ ⟨s.pointer.2, hp2⟩)
        else if key_down ks key.PLUS then
          set_cell s.board (⟨s.pointer.1, hp1⟩, ⟨s.pointer.2, hp2⟩) true
        else if key_down ks key.MINUS then
          set_cell s.board (⟨s.pointer.1, hp1⟩, ⟨s.pointer.2, hp2⟩) false
        else s.board),
       s.steps⟩ := by
  cases hx : key_down ks key.XNT <;>
    simp only [loop_iter, hx, hv, ht, hs, Bool.false_eq_true, if_false, if_true] <;>
    rw [dif_pos ⟨hp1, hp2⟩]

theorem loop_iter_step_eq {s : LoopState} {ks : Nat} (hs : s.state = AppState.StepByStep)
    (hx : key_down ks key.XNT = false) (hv : key_down ks key.VAR = false)
    (ht : key_down ks key.TOOLBOX = false) :
    loop_iter s ks =
      if key_down ks key.EXE then
        some ⟨AppState.StepByStep, s.pointer, full_scan_step s.board, s.steps + 1⟩
      else some ⟨AppState.StepByStep, s.pointer, s.board, s.steps⟩ := by
  cases he : key_down ks key.EXE <;>
    simp only [loop_iter, hx, hv, ht, hs, he, run_once_eq, Bool.false_eq_true, if_false, if_true]

theorem loop_iter_pointer_bounds {s : LoopState} {ks : Nat} {s1 : LoopState}
    (hp1 : s.pointer.1 < LINE_SIZE) (hp2 : s.pointer.2 < COLUMN_SIZE)
    (h : loop_iter s ks = some s1) :
    s1.pointer.1 < LINE_SIZE ∧ s1.pointer.2 < COLUMN_SIZE := by
  simp only [loop_iter] at h
  split at h
  · rw [dif_pos ⟨hp1, hp2⟩] at h
    rw [Option.some.injEq] at h
    subst h
    constructor
    · show (if key_down ks key.LEFT ∧ 0 < s.pointer.1 then s.pointer.1 - 1
        else if key_down ks key.RIGHT ∧ s.pointer.1 < LINE_SIZE - 1 then s.pointer.1 + 1
        else s.pointer.1) < LINE_SIZE
      split_ifs <;> omega
    · show (if key_down ks key.UP ∧ 0 < s.pointer.2 then s.pointer.2 - 1
        else if key_down ks key.DOWN ∧ s.pointer.2 < COLUMN_SIZE - 1 then s.pointer.2 + 1
        else s.pointer.2) < COLUMN_SIZE
      split_ifs <;> omega
  · rw [run_once_eq] at h
    simp only [Option.some.injEq] at h
    subst h
    exact ⟨hp1, hp2⟩
  · split at h
    · rw [run_once_eq] at h
      simp only [Option.some.injEq] at h
      subst h
      exact ⟨hp1, hp2⟩
    · rw [Option.some.injEq] at h
      subst h
      exact ⟨hp1, hp2⟩

/-- C7: the cursor starts in bounds and every loop iteration keeps it in
bounds; in Editor mode a directional move against a boundary leaves the
cursor unchanged (and is not an error), and a directional key away from
the boundary moves the cursor by exactly one cell in that direction. -/
theorem C7_cursor_stays_in_bounds :
    (init_state.pointer.1 < LINE_SIZE ∧ init_state.pointer.2 < COLUMN_SIZE) ∧
    (∀ (s : LoopState) (ks : Nat) (s1 : LoopState),
        s.pointer.1 < LINE_SIZE → s.pointer.2 < COLUMN_SIZE → loop_iter s ks = some s1 →
        s1.pointer.1 < LINE_SIZE ∧ s1.pointer.2 < COLUMN_SIZE) ∧
    (∀ (s : LoopState) (ks : Nat), s.state = AppState.Editor →
        s.pointer.1 < LINE_SIZE → s.pointer.2 < COLUMN_SIZE →
        key_down ks key.VAR = false → key_down ks key.TOOLBOX = false →
        key_down ks key.LEFT = true → key_down ks key.RIGHT = false →
        ∃ s1, loop_iter s ks = some s1 ∧
          (s.pointer.1 = 0 → s1.pointer.1 = 0) ∧
          (0 < s.pointer.1 → s1.pointer.1 = s.pointer.1 - 1)) ∧
    (∀ (s : LoopState) (ks : Nat), s.state = AppState.Editor →
        s.pointer.1 < LINE_SIZE → s.pointer.2 < COLUMN_SIZE →
        key_down ks key.VAR = false → key_down ks key.TOOLBOX = false →
        key_down ks key.LEFT = false → key_down ks key.RIGHT = true →
        ∃ s1, loop_iter s ks = some s1 ∧
          (s.pointer.1 = LINE_SIZE - 1 → s1.pointer.1 = s.pointer.1) ∧
          (s.pointer.1 < LINE_SIZE - 1 → s1.pointer.1 = s.pointer.1 + 1)) ∧
    (∀ (s : LoopState) (ks : Nat), s.state = AppState.Editor →
        s.pointer.1 < LINE_SIZE → s.pointer.2 < COLUMN_SIZE →
        key_down ks key.VAR = false → key_down ks key.TOOLBOX = false →
        key_down ks key.UP = true → key_down ks key.DOWN = false →
        ∃ s1, loop_iter s ks = some s1 ∧
          (s.pointer.2 = 0 → s1.pointer.2 = 0) ∧
          (0 < s.pointer.2 → s1.pointer.2 = s.pointer.2 - 1)) ∧
    (∀ (s : LoopState) (ks : Nat), s.state = AppState.Editor →
        s.pointer.1 < LINE_SIZE → s.pointer.2 < COLUMN_SIZE →
        key_down ks key.VAR = false → key_down ks key.TOOLBOX = false →
        key_down ks key.UP = false → key_down ks key.DOWN = true →
        ∃ s1, loop_iter s ks = some s1 ∧
          (s.pointer.2 = COLUMN_SIZE - 1 → s1.pointer.2 = s.pointer.2) ∧
          (s.pointer.2 < COLUMN_SIZE - 1 → s1.pointer.2 = s.pointer.2 + 1)) := by
  refine ⟨⟨by decide, by decide⟩, fun s ks s1 hp1 hp2 h => loop_iter_pointer_bounds hp1 hp2 h,
    ?_, ?_, ?_, ?_⟩
  · intro s ks hs hp1 hp2 hv ht hl hr
    refine ⟨_, loop_iter_editor_eq hs hv ht hp1 hp2, ?_, ?_⟩
    · intro h0
      show (if key_down ks key.LEFT ∧ 0 < s.pointer.1 then s.pointer.1 - 1
        else if key_down ks key.RIGHT ∧ s.pointer.1 < LINE_SIZE - 1 then s.pointer.1 + 1
        else s.pointer.1) = 0
      rw [if_neg (by omega), if_neg (by simp [hr]), h0]
    · intro h0
      show (if key_down ks key.LEFT ∧ 0 < s.pointer.1 then s.pointer.1 - 1
        else if key_down ks key.RIGHT ∧ s.pointer.1 < LINE_SIZE - 1 then s.pointer.1 + 1
        else s.pointer.1) = s.pointer.1 - 1
      rw [if_pos ⟨hl, h0⟩]
  · intro s ks hs hp1 hp2 hv ht hl hr
    refine ⟨_, loop_iter_editor_eq hs hv ht hp1 hp2, ?_, ?_⟩
    · intro h0
      show (if key_down ks key.LEFT ∧ 0 < s.pointer.1 then s.pointer.1 - 1
        else if key_down ks key.RIGHT ∧ s.pointer.1 < LINE_SIZE - 1 then s.pointer.1 + 1
        else s.pointer.1) = s.pointer.1
      rw [if_neg (by simp [hl]), if_neg (by omega)]
    · intro h0
      show (if key_down ks key.LEFT ∧ 0 < s.pointer.1 then s.pointer.1 - 1
        else if key_down ks key.RIGHT ∧ s.pointer.1 < LINE_SIZE - 1 then s.pointer.1 + 1
        else s.pointer.1) = s.pointer.1 + 1
      rw [if_neg (by simp [hl]), if_pos ⟨hr, h0⟩]
  · intro s ks hs hp1 hp2 hv ht hu hd
    refine ⟨_, loop_iter_editor_eq hs hv ht hp1 hp2, ?_, ?_⟩
    · intro h0
      show (if key_down ks key.UP ∧ 0 < s.pointer.2 then s.pointer.2 - 1
        else if key_down ks key.DOWN ∧ s.pointer.2 < COLUMN_SIZE - 1 then s.pointer.2 + 1
        else s.pointer.2) = 0
      rw [if_neg (by omega), if_neg (by simp [hd]), h0]
    · intro h0
      show (if key_down ks key.UP ∧ 0 < s.pointer.2 then s.pointer.2 - 1
        else if key_down ks key.DOWN ∧ s.pointer.2 < COLUMN_SIZE - 1 then s.pointer.2 + 1
        else s.pointer.2) = s.pointer.2 - 1
      rw [if_pos ⟨hu, h0⟩]
  · intro s ks hs hp1 hp2 hv ht hu hd
    refine ⟨_, loop_iter_editor_eq hs hv ht hp1 hp2, ?_, ?_⟩
    · intro h0
      show (if key_down ks key.UP ∧ 0 < s.pointer.2 then s.pointer.2 - 1
        else if key_down ks key.DOWN ∧ s.pointer.2 < COLUMN_SIZE - 1 then s.pointer.2 + 1
        else s.pointer.2) = s.pointer.2
      rw [if_neg (by simp [hu]), if_neg (by omega)]
    · intro h0
      show (if key_down ks key.UP ∧ 0 < s.pointer.2 then s.pointer.2 - 1
        else if key_down ks key.DOWN ∧ s.pointer.2 < COLUMN_SIZE - 1 then s.pointer.2 + 1
        else s.pointer.2) = s.pointer.2 + 1
      rw [if_neg (by simp [hu]), if_pos ⟨hd, h0⟩]

theorem set_cell_same (b : Board Bool) (c : Coord) (v : Bool) :
    set_cell b c v c.1 c.2 = v := by
  simp [set_cell]

theorem set_cell_set_cell (b : Board Bool) (c : Coord) (v w : Bool) :
    set_cell (set_cell b c v) c w = set_cell b c w := by
  funext i j
  by_cases h : i = c.1 ∧ j = c.2 <;> simp [set_cell, h]

theorem set_cell_id (b : Board Bool) (c : Coord) (v : Bool) (h : b c.1 c.2 = v) :
    set_cell b c v = b := by
  funext i j
  by_cases hij : i = c.1 ∧ j = c.2
  · rw [set_cell, if_pos hij, ← h, hij.1, hij.2]
  · rw [set_cell, if_neg hij]

/-- C8: in Editor mode, toggling the cell under the cursor twice returns
the whole board to its original state, and the force-alive and
force-dead actions are idempotent: a second application leaves the board
of the first application unchanged. -/
theorem C8_toggle_involution_setters_idempotent :
    (∀ (s : LoopState) (ks : Nat), s.state = AppState.Editor →
        s.pointer.1 < LINE_SIZE → s.pointer.2 < COLUMN_SIZE →
        key_down ks key.VAR = false → key_down ks key.TOOLBOX = false →
        key_down ks key.UP = false → key_down ks key.DOWN = false →
        key_down ks key.LEFT = false → key_down ks key.RIGHT = false →
        key_down ks key.EXE = true →
        ∃ s1 s2, loop_iter s ks = some s1 ∧ loop_iter s1 ks = some s2 ∧
          s2.board = s.board) ∧
    (∀ (s : LoopState) (ks : Nat), s.state = AppState.Editor →
        s.pointer.1 < LINE_SIZE → s.pointer.2 < COLUMN_SIZE →
        key_down ks key.VAR = false → key_down ks key.TOOLBOX = false →
        key_down ks key.UP = false → key_down ks key.DOWN = false →
        key_down ks key.LEFT = false → key_down ks key.RIGHT = false →
        key_down ks key.EXE = false → key_down ks key.PLUS = true →
        ∃ s1 s2, loop_iter s ks = some s1 ∧ loop_iter s1 ks = some s2 ∧
          s2.board = s1.board) ∧
    (∀ (s : LoopState) (ks : Nat), s.state = AppState.Editor →
        s.pointer.1 < LINE_SIZE → s.pointer.2 < COLUMN_SIZE →
        key_down ks key.VAR = false → key_down ks key.TOOLBOX = false →
        key_down ks key.UP = false → key_down ks key.DOWN = false →
        key_down ks key.LEFT = false → key_down ks key.RIGHT = false →
        key_down ks key.EXE = false → key_down ks key.PLUS = false →
        key_down ks key.MINUS = true →
        ∃ s1 s2, loop_iter s ks = some s1 ∧ loop_iter s1 ks = some s2 ∧
          s2.board = s1.board) := by
  refine ⟨?_, ?_, ?_⟩
  · intro s ks hs hp1 hp2 hv ht hu hd hl hr he
    refine ⟨_, _, loop_iter_editor_eq hs hv ht hp1 hp2, loop_iter_editor_eq rfl hv ht (by
        simp only [hl, hr, hu, hd, Bool.false_eq_true, false_and, if_false]
        exact hp1)
      (by
        simp only [hl, hr, hu, hd, Bool.false_eq_true, false_and, if_false]
        exact hp2), ?_⟩
    simp only [hl, hr, hu, hd, he, Bool.false_eq_true, false_and, if_false, if_true]
    rw [set_cell_same, set_cell_set_cell, Bool.not_not]
    exact set_cell_id _ _ _ rfl
  · intro s ks hs hp1 hp2 hv ht hu hd hl hr he hplus
    refine ⟨_, _, loop_iter_editor_eq hs hv ht hp1 hp2, loop_iter_editor_eq rfl hv ht (by
        simp only [hl, hr, hu, hd, Bool.false_eq_true, false_and, if_false]
        exact hp1)
      (by
        simp only [hl, hr, hu, hd, Bool.false_eq_true, false_and, if_false]
        exact hp2), ?_⟩
    simp only [hl, hr, hu, hd, he, hplus, Bool.false_eq_true, false_and, if_false, if_true]
    rw [set_cell_set_cell]
  · intro s ks hs hp1 hp2 hv ht hu hd hl hr he hplus hminus
    refine ⟨_, _, loop_iter_editor_eq hs hv ht hp1 hp2, loop_iter_editor_eq rfl hv ht (by
        simp only [hl, hr, hu, hd, Bool.false_eq_true, false_and, if_false]
        exact hp1)
      (by
        simp only [hl, hr, hu, hd, Bool.false_eq_true, false_and, if_false]
        exact hp2), ?_⟩
    simp only [hl, hr, hu, hd, he, hplus, hminus, Bool.false_eq_true, false_and, if_false,
      if_true]
    rw [set_cell_set_cell]

theorem run_loop_cons_some {s s1 : LoopState} {ks : Nat} (h : loop_iter s ks = some s1)
    (rest : List Nat) : run_loop s (ks :: rest) = run_loop s1 rest := by
  show (match loop_iter s ks with
    | some s1 => run_loop s1 rest
    | none => none) = run_loop s1 rest
  rw [h]

/-- C4 counterexample: starting in StepByStep mode on the empty board, a
single sustained press of the EXE (advance) key spanning two consecutive
polled iterations is one rising edge but advances the simulation twice:
the step key is level-triggered in the source, not edge-triggered. -/
theorem C4_counterexample_sustained_press :
    ∃ s1, run_loop { init_state with state := AppState.StepByStep } [2 ^ 52, 2 ^ 52]
        = some s1 ∧ s1.steps = 2 ∧ rising_edges key.EXE [2 ^ 52, 2 ^ 52] = 1 := by
  have hx : key_down (2 ^ 52) key.XNT = false := by decide
  have hv : key_down (2 ^ 52) key.VAR = false := by decide
  have ht : key_down (2 ^ 52) key.TOOLBOX = false := by decide
  have he : key_down (2 ^ 52) key.EXE = true := by decide
  refine ⟨⟨AppState.StepByStep,
      ({ init_state with state := AppState.StepByStep } : LoopState).pointer,
      full_scan_step (full_scan_step init_state.board),
      ({ init_state with state := AppState.StepByStep } : LoopState).steps + 1 + 1⟩,
    ?_, rfl, by decide⟩
  have h1 : loop_iter { init_state with state := AppState.StepByStep } (2 ^ 52) =
      some ⟨AppState.StepByStep,
        ({ init_state with state := AppState.StepByStep } : LoopState).pointer,
        full_scan_step init_state.board,
        ({ init_state with state := AppState.StepByStep } : LoopState).steps + 1⟩ := by
    rw [loop_iter_step_eq rfl hx hv ht, if_pos he]
  rw [run_loop_cons_some h1]
  rw [run_loop_cons_some (by rw [loop_iter_step_eq rfl hx hv ht, if_pos he])]
  rfl

/-- C4 (amended): the step key is level-triggered: starting in StepByStep
mode, over any snapshot sequence that presses no mode-switch key, the
number of simulation-step invocations is exactly the number of polled
iterations in which the advance key reads down, so a sustained press
spanning k iterations advances k generations, not one. -/
theorem C4_step_key_level_triggered (s : LoopState) (l : List Nat)
    (hs : s.state = AppState.StepByStep)
    (hl : ∀ ks ∈ l, key_down ks key.XNT = false ∧ key_down ks key.VAR = false ∧
      key_down ks key.TOOLBOX = false) :
    ∃ s1, run_loop s l = some s1 ∧ s1.state = AppState.StepByStep ∧
      s1.steps = s.steps + (l.countP fun ks => key_down ks key.EXE) := by
  induction l generalizing s with
  | nil => exact ⟨s, rfl, hs, by simp⟩
  | cons ks rest ih =>
    obtain ⟨hx, hv, ht⟩ := hl ks (List.mem_cons_self ks rest)
    have hrest : ∀ k ∈ rest, key_down k key.XNT = false ∧ key_down k key.VAR = false ∧
        key_down k key.TOOLBOX = false := fun k hk => hl k (List.mem_cons_of_mem ks hk)
    unfold run_loop
    rw [loop_iter_step_eq hs hx hv ht]
    cases he : key_down ks key.EXE with
    | true =>
      rw [if_pos rfl]
      obtain ⟨s1, h1, h2, h3⟩ :=
        ih ⟨AppState.StepByStep, s.pointer, full_scan_step s.board, s.steps + 1⟩ rfl hrest
      refine ⟨s1, h1, h2, ?_⟩
      rw [h3, List.countP_cons]
      simp [he]
      omega
    | false =>
      rw [if_neg (by simp [he])]
      obtain ⟨s1, h1, h2, h3⟩ :=
        ih ⟨AppState.StepByStep, s.pointer, s.board, s.steps⟩ rfl hrest
      refine ⟨s1, h1, h2, ?_⟩
      rw [h3, List.countP_cons]
      simp [he]

/-- C4 witness: the level-triggered count at the concrete one-snapshot
sequence that holds EXE down, starting from the initial state switched to
StepByStep mode. -/
theorem C4_step_key_level_triggered_witness :
    ∃ s1, run_loop { init_state with state := AppState.StepByStep } [2 ^ 52] = some s1 ∧
      s1.state = AppState.StepByStep ∧
      s1.steps = ({ init_state with state := AppState.StepByStep } : LoopState).steps +
        ([2 ^ 52].countP fun ks => key_down ks key.EXE) :=
  C4_step_key_level_triggered { init_state with state := AppState.StepByStep } [2 ^ 52] rfl
    (by decide)
